import Mathlib

/-!
Shallow embedding of the LSP-MCP bridge core (src/src/lsp-manager.ts) and
verification of the frozen claims about it.

The `LSPManager` class is modelled as an explicit state record plus pure
state-transition functions.  Side effects (process spawns, JSON-RPC requests
and notifications, process kills) are recorded in an explicit effect trace.
Connection and process objects are modelled as numeric handles allocated from
a counter in the state.  The file system is modelled as a partial map from
paths to contents, and the directory tree scanned by `detectLanguages` as an
inductive tree of entries.
-/

namespace LspMcp

/-- Embeds `LSPServerConfig` (lsp-manager.ts lines 7-11). -/
structure LSPServerConfig where
  command : String
  args : List String
  fileExtensions : List String
deriving DecidableEq, Repr

/-- Embeds the `LSP_CONFIGS` record (lsp-manager.ts lines 13-40).  A JS
object literal iterates in declaration order under `Object.entries`, so the
record is embedded as an ordered association list. -/
def LSP_CONFIGS : List (String × LSPServerConfig) :=
  [ ("python", ⟨"pylsp", [], [".py"]⟩),
    ("go", ⟨"gopls", [], [".go"]⟩),
    ("rust", ⟨"rust-analyzer", [], [".rs"]⟩),
    ("typescript", ⟨"typescript-language-server", ["--stdio"], [".ts", ".tsx", ".js", ".jsx"]⟩),
    ("customdsl", ⟨"/path/to/custom-dsl-lsp", ["--stdio"], [".cdsl"]⟩) ]

/-- Index of the last occurrence of a dot in a list of characters. -/
def lastDotIdx : List Char → Option Nat
  | [] => none
  | c :: rest =>
    match lastDotIdx rest with
    | some i => some (i + 1)
    | none => if c = '.' then some 0 else none

/-- Characters after the last path separator. -/
def basenameChars (s : List Char) : List Char :=
  s.foldl (fun acc c => if c = '/' then [] else acc ++ [c]) []

/-- Embeds Node `path.extname`: the suffix of the basename from its last dot,
except that a name with no dot, a name whose only dot is its first character,
and the special name consisting of two dots yield the empty string. -/
def extname (s : String) : String :=
  let b := basenameChars s.data
  if b = ['.', '.'] then ""
  else
    match lastDotIdx b with
    | none => ""
    | some 0 => ""
    | some i => String.mk (b.drop i)

/-- Embeds `LSPManager.getLanguageId` (lsp-manager.ts lines 181-193). -/
def getLanguageId (filePath : String) : String :=
  let ext := extname filePath
  let mapping : List (String × String) :=
    [ (".py", "python"), (".go", "go"), (".rs", "rust"), (".ts", "typescript"),
      (".tsx", "typescriptreact"), (".js", "javascript"), (".jsx", "javascriptreact") ]
  (mapping.lookup ext).getD "plaintext"

/-- Error kinds surfaced by the manager.  `noConfig`, `notInitialized`,
`unsupportedExt` and `fileUnreadable` correspond to the `Error` values thrown
at lsp-manager.ts lines 89, 149, 158 and 166 respectively.  `handshakeTimeout`
and `backendCrashed` are the error kinds named by the specification; they are
included so that their absence from every reachable outcome can be stated. -/
inductive LspError where
  | noConfig (language : String)
  | notInitialized (language : String)
  | unsupportedExt (ext : String)
  | fileUnreadable (path : String)
  | handshakeTimeout
  | backendCrashed
deriving DecidableEq, Repr

/-- Observable side effects of the manager, recorded as a trace.  Handles
stand for the spawned `ChildProcess` and created `MessageConnection` objects. -/
inductive Effect where
  | spawn (command : String) (args : List String) (proc : Nat)
  | request (conn : Nat) (method : String)
  | notif (conn : Nat) (method : String)
  | didOpen (conn : Nat) (uri : String) (languageId : String) (version : Nat) (text : String)
  | kill (proc : Nat)
deriving DecidableEq, Repr

/-- Embeds the mutable fields of class `LSPManager` (lsp-manager.ts lines
42-46).  `servers` and `processes` embed the two JS `Map`s from language id to
connection and process handle; `openDocuments` embeds the map from file path
to content.  `nextHandle` is the allocator for fresh process and connection
handles (an embedding device standing for object identity). -/
structure ManagerState where
  servers : List (String × Nat)
  processes : List (String × Nat)
  workspaceRoot : String
  openDocuments : List (String × String)
  nextHandle : Nat
deriving DecidableEq, Repr

/-- JS `Map.set`: replace the binding in place when the key is present,
otherwise append it. -/
def mapSet {α : Type} (m : List (String × α)) (k : String) (v : α) : List (String × α) :=
  match m with
  | [] => [(k, v)]
  | (k', v') :: rest => if k' = k then (k, v) :: rest else (k', v') :: mapSet rest k v

/-- Embeds `LSPManager.ensureDocumentOpen` (lsp-manager.ts lines 161-179).
`fs` models the file system seen by `fs.readFileSync`; a `none` result stands
for a missing or unreadable file, whose read throws.  Returns the outcome, the
state at exit and the trace of notifications sent. -/
def ensureDocumentOpen (st : ManagerState) (fs : String → Option String)
    (filePath : String) (conn : Nat) :
    Except LspError Unit × ManagerState × List Effect :=
  if (st.openDocuments.lookup filePath).isSome then
    (Except.ok (), st, [])
  else
    match fs filePath with
    | none => (Except.error (LspError.fileUnreadable filePath), st, [])
    | some content =>
      (Except.ok (),
       { st with openDocuments := mapSet st.openDocuments filePath content },
       [Effect.didOpen conn ("file://" ++ filePath) (getLanguageId filePath) 1 content])

/-- Embeds the `for (const [lang, config] of Object.entries(LSP_CONFIGS))`
loop in `LSPManager.getConnection` (lsp-manager.ts lines 145-156): the first
config whose extension list contains the extension is dispatched to; falling
off the loop throws the unsupported-extension error (line 158). -/
def getConnLoop (st : ManagerState) (fs : String → Option String)
    (filePath ext : String) :
    List (String × LSPServerConfig) → Except LspError Nat × ManagerState × List Effect
  | [] => (Except.error (LspError.unsupportedExt ext), st, [])
  | (lang, config) :: rest =>
    if config.fileExtensions.contains ext then
      match st.servers.lookup lang with
      | none => (Except.error (LspError.notInitialized lang), st, [])
      | some conn =>
        match ensureDocumentOpen st fs filePath conn with
        | (Except.error e, st', effs) => (Except.error e, st', effs)
        | (Except.ok _, st', effs) => (Except.ok conn, st', effs)
    else getConnLoop st fs filePath ext rest

/-- Embeds `LSPManager.getConnection` (lsp-manager.ts lines 142-159). -/
def getConnection (st : ManagerState) (fs : String → Option String)
    (filePath : String) : Except LspError Nat × ManagerState × List Effect :=
  getConnLoop st fs filePath (extname filePath) LSP_CONFIGS

/-- Outcome of an asynchronous manager operation.  `blocked` records that the
operation suspended on an `await` whose promise never settles, together with
the state and effect trace accumulated up to that point. -/
inductive StartOutcome where
  | ok (st : ManagerState) (effects : List Effect)
  | error (e : LspError) (st : ManagerState) (effects : List Effect)
  | blocked (st : ManagerState) (effects : List Effect)
deriving DecidableEq, Repr

/-- The error carried by an outcome, when it is an error. -/
def StartOutcome.errorKind : StartOutcome → Option LspError
  | .ok _ _ => none
  | .error e _ _ => some e
  | .blocked _ _ => none

/-- Embeds `LSPManager.startLSP` (lsp-manager.ts lines 86-140): look up the
config (throwing when absent), spawn the process and register it, create the
message connection, send the handshake request, and on its reply send the
handshake completion notification and register the connection.
`handshakeReply` states whether the backend ever answers the handshake
request; the code awaits the reply with no timing bound, so a silent backend
leaves the operation suspended (`blocked`). -/
def startLSP (st : ManagerState) (language : String) (handshakeReply : Bool) :
    StartOutcome :=
  match LSP_CONFIGS.lookup language with
  | none => StartOutcome.error (LspError.noConfig language) st []
  | some config =>
    let proc := st.nextHandle
    let conn := st.nextHandle + 1
    let st1 : ManagerState :=
      { st with processes := mapSet st.processes language proc,
                nextHandle := st.nextHandle + 2 }
    let effs := [Effect.spawn config.command config.args proc,
                 Effect.request conn "initialize"]
    if handshakeReply then
      StartOutcome.ok
        { st1 with servers := mapSet st1.servers language conn }
        (effs ++ [Effect.notif conn "initialized"])
    else
      StartOutcome.blocked st1 effs

/-- A directory tree entry, modelling what `fs.readdirSync` and
`fs.statSync(...).isDirectory()` observe during the language scan. -/
inductive FsEntry where
  | file (name : String)
  | dir (name : String) (entries : List FsEntry)

mutual

/-- Size of a tree entry, used as the termination measure of the scan. -/
def entrySize : FsEntry → Nat
  | FsEntry.file _ => 1
  | FsEntry.dir _ sub => 1 + entriesSize sub

/-- Size of a list of tree entries. -/
def entriesSize : List FsEntry → Nat
  | [] => 0
  | e :: rest => entrySize e + entriesSize rest

end

/-- First character is a dot, embedding the startsWith check against a dot. -/
def strStartsWithDot (s : String) : Bool :=
  match s.data with
  | [] => false
  | c :: _ => c = '.'

/-- JS `Set.add`: insertion-ordered, ignoring a value already present. -/
def addLang (langs : List String) (lang : String) : List String :=
  if langs.contains lang then langs else langs ++ [lang]

/-- The inner loop of the scan (lsp-manager.ts lines 73-77): add every
language whose config lists the extension. -/
def addMatches (langs : List String) (ext : String) : List String :=
  LSP_CONFIGS.foldl
    (fun acc p => if p.2.fileExtensions.contains ext then addLang acc p.1 else acc)
    langs

/-- Embeds the body of `scanDir` in `LSPManager.detectLanguages`
(lsp-manager.ts lines 63-80) after its depth guard: walk the first 100
entries of the directory (`remaining` counts how many of the slice are left);
a non-directory entry, and also a directory entry whose name starts with a
dot, has its extension matched against every config; a directory entry whose
name does not start with a dot is recursed into with the depth guard
`depth > 3` applied at entry. -/
def scanList (depth remaining : Nat) (entries : List FsEntry)
    (langs : List String) : List String :=
  match entries with
  | [] => langs
  | e :: rest =>
    if remaining = 0 then langs
    else
      match e with
      | FsEntry.file n => scanList depth (remaining - 1) rest (addMatches langs (extname n))
      | FsEntry.dir n sub =>
        if strStartsWithDot n then
          scanList depth (remaining - 1) rest (addMatches langs (extname n))
        else
          scanList depth (remaining - 1) rest
            (if depth + 1 > 3 then langs else scanList (depth + 1) 100 sub langs)
termination_by entriesSize entries
decreasing_by
  all_goals simp [entriesSize, entrySize]
  all_goals omega

/-- Embeds `scanDir` (lsp-manager.ts lines 63-65): return at depth above 3,
otherwise scan the first 100 entries. -/
def scanDir (depth : Nat) (entries : List FsEntry) (langs : List String) :
    List String :=
  if depth > 3 then langs else scanList depth 100 entries langs

/-- Embeds `LSPManager.detectLanguages` (lsp-manager.ts lines 59-84), with the
tree standing for the contents of the root directory. -/
def detectLanguages (root : List FsEntry) : List String :=
  scanDir 0 root []

/-- Embeds the `for (const lang of langsToInit) await this.startLSP(lang)`
loop of `LSPManager.initialize` (lsp-manager.ts lines 54-56); a thrown error
or a blocked handshake stops the loop there. -/
def initLoop (replies : String → Bool) :
    ManagerState → List String → List Effect → StartOutcome
  | st, [], effs => StartOutcome.ok st effs
  | st, lang :: rest, effs =>
    match startLSP st lang (replies lang) with
    | StartOutcome.ok st' e => initLoop replies st' rest (effs ++ e)
    | StartOutcome.error err st' e => StartOutcome.error err st' (effs ++ e)
    | StartOutcome.blocked st' e => StartOutcome.blocked st' (effs ++ e)

/-- Embeds `LSPManager.initialize` (lsp-manager.ts lines 48-57): record the
workspace root, take the explicit language list or fall back to the directory
scan, and start a backend for each language in order.  `root` is the tree of
the root directory and `replies` states for which languages the backend answers the
handshake. -/
def initWorkspace (st : ManagerState) (rootPath : String)
    (languages : Option (List String)) (root : List FsEntry)
    (replies : String → Bool) : StartOutcome :=
  let st1 : ManagerState := { st with workspaceRoot := rootPath }
  let langsToInit := match languages with
    | some l => l
    | none => detectLanguages root
  initLoop replies st1 langsToInit []

/-- State transition of the manager when a backend process exits.  The code
spawns the process (lsp-manager.ts line 94) and creates the message connection
(line 101) without registering any exit, error or close listener, and no other
code observes process termination, so the manager state is unchanged by a
backend exit. -/
def onProcessExit (st : ManagerState) (proc : Nat) : ManagerState :=
  let _ := proc
  st

/-- Embeds `LSPManager.shutdown` (lsp-manager.ts lines 195-201): iterate the
server map in order; for each session await the shutdown request, then send
the exit notification and kill the process when one is registered.  `acks`
states which connections ever answer the shutdown request; the code awaits
each answer with no timing bound, so an unresponsive backend leaves the loop
suspended (`blocked`).  The maps are not cleared. -/
def shutdownLoop (st : ManagerState) (acks : Nat → Bool) :
    List (String × Nat) → List Effect → StartOutcome
  | [], effs => StartOutcome.ok st effs
  | (lang, conn) :: rest, effs =>
    if acks conn then
      shutdownLoop st acks rest
        (effs ++ [Effect.request conn "shutdown", Effect.notif conn "exit"] ++
          (match st.processes.lookup lang with
           | some p => [Effect.kill p]
           | none => []))
    else
      StartOutcome.blocked st (effs ++ [Effect.request conn "shutdown"])

/-- Embeds `LSPManager.shutdown` at its entry point. -/
def shutdown (st : ManagerState) (acks : Nat → Bool) : StartOutcome :=
  shutdownLoop st acks st.servers []

/-- Written after the words of the specification: routing picks the first
descriptor, in table-declaration order, whose extension set contains the
extension of the path, and yields its language id. -/
def routeLanguage (filePath : String) : Option String :=
  (LSP_CONFIGS.find? fun p => p.2.fileExtensions.contains (extname filePath)).map
    Prod.fst

/-- Written after the words of the specification: resolving a session
dispatches on the single routed language — no descriptor means the
unsupported-file-type failure, a routed language without a registered session
means the not-initialized failure, and otherwise the registered session is
returned after the document is ensured open. -/
def getConnRoute (st : ManagerState) (fs : String → Option String)
    (filePath : String) : Except LspError Nat × ManagerState × List Effect :=
  match routeLanguage filePath with
  | none => (Except.error (LspError.unsupportedExt (extname filePath)), st, [])
  | some lang =>
    match st.servers.lookup lang with
    | none => (Except.error (LspError.notInitialized lang), st, [])
    | some conn =>
      match ensureDocumentOpen st fs filePath conn with
      | (Except.error e, st', effs) => (Except.error e, st', effs)
      | (Except.ok _, st', effs) => (Except.ok conn, st', effs)

/-- Names of the directory entries scanned as files by the language scan,
with the same traversal limits as the code: the first 100 entries of every
visited directory, recursion only into directories whose name does not start
with a dot, and no recursion beyond depth 3.  With `dotDirsAsFiles = false`
this follows the claim wording, under which only non-directory entries are
scanned files; with `dotDirsAsFiles = true` a directory entry whose name
starts with a dot also counts as a scanned file. -/
def scannedNames (dotDirsAsFiles : Bool) (depth remaining : Nat) :
    List FsEntry → List String
  | [] => []
  | e :: rest =>
    if remaining = 0 then []
    else
      match e with
      | FsEntry.file n => n :: scannedNames dotDirsAsFiles depth (remaining - 1) rest
      | FsEntry.dir n sub =>
        if strStartsWithDot n then
          (if dotDirsAsFiles then [n] else []) ++
            scannedNames dotDirsAsFiles depth (remaining - 1) rest
        else
          (if depth + 1 > 3 then [] else scannedNames dotDirsAsFiles (depth + 1) 100 sub) ++
            scannedNames dotDirsAsFiles depth (remaining - 1) rest
termination_by entries => entriesSize entries
decreasing_by
  all_goals simp [entriesSize, entrySize]
  all_goals omega

/-- Written after the words of the claim: the detected languages are exactly
those whose configured file extensions match the extension of some scanned
file, the scanned files being the non-directory entries reached within the
traversal limits. -/
def detectLanguagesClaim (root : List FsEntry) : List String :=
  LSP_CONFIGS.filterMap fun p =>
    if (scannedNames false 0 100 root).any
        (fun n => p.2.fileExtensions.contains (extname n)) then
      some p.1
    else none

/-- The claim amended: a directory entry whose name starts with a dot is not
recursed into and is instead treated like a file, so the extension of its name
also participates in the match. -/
def detectLanguagesAmended (root : List FsEntry) : List String :=
  LSP_CONFIGS.filterMap fun p =>
    if (scannedNames true 0 100 root).any
        (fun n => p.2.fileExtensions.contains (extname n)) then
      some p.1
    else none

/-- The language id matches the extension through some config entry. -/
def matchesOne (lang ext : String) : Prop :=
  ∃ p ∈ LSP_CONFIGS, p.1 = lang ∧ p.2.fileExtensions.contains ext = true

/-- The language id matches the extension of some name in the list. -/
def langMatches (lang : String) (names : List String) : Prop :=
  ∃ n ∈ names, matchesOne lang (extname n)

instance {ε α : Type} [DecidableEq ε] [DecidableEq α] :
    DecidableEq (Except ε α)
  | Except.ok a, Except.ok b =>
    if h : a = b then isTrue (by rw [h]) else isFalse (by simp [h])
  | Except.error a, Except.error b =>
    if h : a = b then isTrue (by rw [h]) else isFalse (by simp [h])
  | Except.ok _, Except.error _ => isFalse (by simp)
  | Except.error _, Except.ok _ => isFalse (by simp)

/-- An empty manager state, as produced by `new LSPManager()`. -/
def stEmpty : ManagerState := ⟨[], [], "", [], 0⟩

/-- A state with a running python backend (connection handle 1, process
handle 0) and the file `/a.py` already open. -/
def stPy : ManagerState :=
  ⟨[("python", 1)], [("python", 0)], "/w", [("/a.py", "x = 1")], 2⟩

/-- A file system holding just `/a.py`. -/
def fsA : String → Option String :=
  fun p => if p = "/a.py" then some "x = 1" else none

theorem lookup_mapSet_self {α : Type} (m : List (String × α)) (k : String) (v : α) :
    (mapSet m k v).lookup k = some v := by
  induction m with
  | nil => simp [mapSet, List.lookup]
  | cons hd tl ih =>
    obtain ⟨k', v'⟩ := hd
    by_cases h : k' = k
    · simp [mapSet, h, List.lookup]
    · simp only [mapSet, if_neg h, List.lookup]
      have : (k == k') = false := by simp [Ne.symm h]
      simp [this, ih]

theorem mem_keys_mapSet {α : Type} (m : List (String × α)) (k x : String) (v : α) :
    x ∈ (mapSet m k v).map Prod.fst ↔ x ∈ m.map Prod.fst ∨ x = k := by
  induction m with
  | nil => simp [mapSet]
  | cons hd tl ih =>
    obtain ⟨k', v'⟩ := hd
    by_cases h : k' = k
    · subst h; simp [mapSet]; tauto
    · simp [mapSet, if_neg h, ih]; tauto

theorem nodup_keys_mapSet {α : Type} (m : List (String × α)) (k : String) (v : α)
    (h : (m.map Prod.fst).Nodup) : ((mapSet m k v).map Prod.fst).Nodup := by
  induction m with
  | nil => simp [mapSet]
  | cons hd tl ih =>
    obtain ⟨k', v'⟩ := hd
    simp only [List.map_cons, List.nodup_cons] at h
    by_cases hk : k' = k
    · subst hk
      simp [mapSet] at h ⊢
      exact h
    · simp only [mapSet, if_neg hk, List.map_cons, List.nodup_cons]
      refine ⟨?_, ih h.2⟩
      intro hmem
      rcases (mem_keys_mapSet tl k k' v).mp hmem with h1 | h1
      · exact h.1 h1
      · exact hk h1

theorem getConnLoop_eq_route (st : ManagerState) (fs : String → Option String)
    (filePath ext : String) (cfgs : List (String × LSPServerConfig)) :
    getConnLoop st fs filePath ext cfgs =
      match (cfgs.find? fun p => p.2.fileExtensions.contains ext).map Prod.fst with
      | none => (Except.error (LspError.unsupportedExt ext), st, [])
      | some lang =>
        match st.servers.lookup lang with
        | none => (Except.error (LspError.notInitialized lang), st, [])
        | some conn =>
          match ensureDocumentOpen st fs filePath conn with
          | (Except.error e, st', effs) => (Except.error e, st', effs)
          | (Except.ok _, st', effs) => (Except.ok conn, st', effs) := by
  induction cfgs with
  | nil => simp [getConnLoop]
  | cons hd tl ih =>
    obtain ⟨lang, config⟩ := hd
    by_cases h : ext ∈ config.fileExtensions
    · simp [getConnLoop, List.find?, h]
    · simp [getConnLoop, List.find?, h, ih]

/-- The code routes exactly as the first-match specification routes. -/
theorem getConnection_eq_getConnRoute (st : ManagerState)
    (fs : String → Option String) (filePath : String) :
    getConnection st fs filePath = getConnRoute st fs filePath := by
  rw [getConnection, getConnLoop_eq_route, getConnRoute, routeLanguage]

/-- Claim C1, counterexample: `.py` has a descriptor, yet with no session
registered for python, `getConnection` on `/a.py` fails with the
not-initialized error, spawns nothing and changes nothing — the resolution is
not lazy and does fail merely because the backend was not started before. -/
theorem C1_cex :
    routeLanguage "/a.py" = some "python" ∧
    stEmpty.servers.lookup "python" = none ∧
    getConnection stEmpty fsA "/a.py" =
      (Except.error (LspError.notInitialized "python"), stEmpty, []) := by
  refine ⟨by decide, by decide, by decide⟩

/-- Claim C1 amended: `getConnection` does not lazily start backends.  When
the routed language has no registered session it fails with the
not-initialized error, with no spawn and no state change; only when a session
is already registered is it returned (here stated for a file that is already
open, where no further effect occurs).  Backends are started only by the
explicit workspace initialization. -/
theorem C1_amended (st : ManagerState) (fs : String → Option String)
    (filePath lang : String)
    (hroute : routeLanguage filePath = some lang) :
    (st.servers.lookup lang = none →
      getConnection st fs filePath =
        (Except.error (LspError.notInitialized lang), st, [])) ∧
    (∀ conn, st.servers.lookup lang = some conn →
      (st.openDocuments.lookup filePath).isSome →
      getConnection st fs filePath = (Except.ok conn, st, [])) := by
  rw [getConnection_eq_getConnRoute]
  constructor
  · intro hnone
    simp [getConnRoute, hroute, hnone]
  · intro conn hconn hopen
    simp [getConnRoute, hroute, hconn, ensureDocumentOpen, hopen]

/-- Claim C1, witness for the amended theorem at concrete inputs. -/
theorem C1_amended_w :
    routeLanguage "/a.py" = some "python" ∧
    stEmpty.servers.lookup "python" = none ∧
    getConnection stEmpty fsA "/a.py" =
      (Except.error (LspError.notInitialized "python"), stEmpty, []) ∧
    stPy.servers.lookup "python" = some 1 ∧
    getConnection stPy fsA "/a.py" = (Except.ok 1, stPy, []) :=
  ⟨by decide, by decide,
   (C1_amended stEmpty fsA "/a.py" "python" (by decide)).1 (by decide),
   by decide,
   (C1_amended stPy fsA "/a.py" "python" (by decide)).2 1 (by decide) (by decide)⟩

/-- Claim C5: ensuring a document open is idempotent per file path — the
first call for a path reads the file and sends exactly one didOpen
notification carrying version 1 and the full text, and a subsequent call for
the same path is a no-op sending nothing. -/
theorem C5_ensureDocumentOpen_idempotent (st : ManagerState)
    (fs : String → Option String) (filePath : String) (conn conn2 : Nat)
    (content : String)
    (hnew : st.openDocuments.lookup filePath = none)
    (hfs : fs filePath = some content) :
    ensureDocumentOpen st fs filePath conn =
      (Except.ok (),
       { st with openDocuments := mapSet st.openDocuments filePath content },
       [Effect.didOpen conn ("file://" ++ filePath) (getLanguageId filePath) 1 content]) ∧
    ensureDocumentOpen
        { st with openDocuments := mapSet st.openDocuments filePath content }
        fs filePath conn2 =
      (Except.ok (),
       { st with openDocuments := mapSet st.openDocuments filePath content },
       []) := by
  constructor
  · simp [ensureDocumentOpen, hnew, hfs]
  · simp [ensureDocumentOpen, lookup_mapSet_self]

/-- Claim C5, witness at concrete inputs. -/
theorem C5_w :
    stEmpty.openDocuments.lookup "/a.py" = none ∧
    fsA "/a.py" = some "x = 1" ∧
    (ensureDocumentOpen stEmpty fsA "/a.py" 5 =
      (Except.ok (), ⟨[], [], "", [("/a.py", "x = 1")], 0⟩,
       [Effect.didOpen 5 "file:///a.py" "python" 1 "x = 1"]) ∧
     ensureDocumentOpen ⟨[], [], "", [("/a.py", "x = 1")], 0⟩ fsA "/a.py" 7 =
      (Except.ok (), ⟨[], [], "", [("/a.py", "x = 1")], 0⟩, [])) :=
  ⟨by decide, by decide,
   C5_ensureDocumentOpen_idempotent stEmpty fsA "/a.py" 5 7 "x = 1"
     (by decide) (by decide)⟩

/-- Claim C6: requesting a session for a file whose extension matches no
descriptor fails with the unsupported-file-type error, leaves the state
unchanged (no process spawned or affected) and produces no effect (no
document opened). -/
theorem C6_unsupported_extension (st : ManagerState)
    (fs : String → Option String) (filePath : String)
    (hroute : routeLanguage filePath = none) :
    getConnection st fs filePath =
      (Except.error (LspError.unsupportedExt (extname filePath)), st, []) := by
  rw [getConnection_eq_getConnRoute]
  simp [getConnRoute, hroute]

/-- Claim C6, witness at concrete inputs. -/
theorem C6_w :
    routeLanguage "/a.xyz" = none ∧
    getConnection stPy fsA "/a.xyz" =
      (Except.error (LspError.unsupportedExt ".xyz"), stPy, []) :=
  ⟨by decide, C6_unsupported_extension stPy fsA "/a.xyz" (by decide)⟩

/-- Claim C7: when the file is missing or unreadable at open time, ensuring
the document open fails with the file-unreadable error naming the path, the
open-document map is unchanged, and no didOpen notification is sent; the
resolving call propagates the same failure before any effect reaches the
backend. -/
theorem C7_file_unreadable (st : ManagerState) (fs : String → Option String)
    (filePath lang : String) (conn : Nat)
    (hroute : routeLanguage filePath = some lang)
    (hconn : st.servers.lookup lang = some conn)
    (hnew : st.openDocuments.lookup filePath = none)
    (hfs : fs filePath = none) :
    ensureDocumentOpen st fs filePath conn =
      (Except.error (LspError.fileUnreadable filePath), st, []) ∧
    getConnection st fs filePath =
      (Except.error (LspError.fileUnreadable filePath), st, []) := by
  have h1 : ensureDocumentOpen st fs filePath conn =
      (Except.error (LspError.fileUnreadable filePath), st, []) := by
    simp [ensureDocumentOpen, hnew, hfs]
  refine ⟨h1, ?_⟩
  rw [getConnection_eq_getConnRoute]
  simp [getConnRoute, hroute, hconn, h1]

/-- Claim C7, witness at concrete inputs: a state with a python session but a
missing file `/b.py`. -/
theorem C7_w :
    routeLanguage "/b.py" = some "python" ∧
    stPy.servers.lookup "python" = some 1 ∧
    stPy.openDocuments.lookup "/b.py" = none ∧
    fsA "/b.py" = none ∧
    (ensureDocumentOpen stPy fsA "/b.py" 1 =
      (Except.error (LspError.fileUnreadable "/b.py"), stPy, []) ∧
     getConnection stPy fsA "/b.py" =
      (Except.error (LspError.fileUnreadable "/b.py"), stPy, [])) :=
  ⟨by decide, by decide, by decide, by decide,
   C7_file_unreadable stPy fsA "/b.py" "python" 1
     (by decide) (by decide) (by decide) (by decide)⟩

/-- Claim C2, counterexample: with a python session registered (connection 1,
process 0) and its backend process exiting, the manager state is unchanged —
the session slot is not cleared — and the next resolution for `/a.py` returns
the stale connection 1 with an empty effect trace, so no fresh backend is
spawned. -/
theorem C2_cex :
    onProcessExit stPy 0 = stPy ∧
    stPy.servers.lookup "python" = some 1 ∧
    getConnection stPy fsA "/a.py" = (Except.ok 1, stPy, []) :=
  ⟨by decide, by decide, by decide⟩

/-- Claim C2 amended: the manager installs no exit, error or close listener
on a backend process or its connection, so a backend exit changes nothing:
no pending call is failed with a backend-crashed error, the session slot for
that language is kept, and the next resolution for the language returns the
stale connection without spawning a fresh process. -/
theorem C2_amended (st : ManagerState) (q : Nat) (fs : String → Option String)
    (filePath lang content : String) (conn : Nat)
    (hroute : routeLanguage filePath = some lang)
    (hconn : st.servers.lookup lang = some conn)
    (hopen : st.openDocuments.lookup filePath = some content) :
    onProcessExit st q = st ∧
    (onProcessExit st q).servers.lookup lang = some conn ∧
    getConnection (onProcessExit st q) fs filePath = (Except.ok conn, st, []) := by
  refine ⟨rfl, hconn, ?_⟩
  rw [onProcessExit, getConnection_eq_getConnRoute]
  simp [getConnRoute, hroute, hconn, ensureDocumentOpen, hopen]

/-- Claim C2, witness for the amended theorem at concrete inputs. -/
theorem C2_amended_w :
    routeLanguage "/a.py" = some "python" ∧
    stPy.servers.lookup "python" = some 1 ∧
    stPy.openDocuments.lookup "/a.py" = some "x = 1" ∧
    (onProcessExit stPy 0 = stPy ∧
     (onProcessExit stPy 0).servers.lookup "python" = some 1 ∧
     getConnection (onProcessExit stPy 0) fsA "/a.py" = (Except.ok 1, stPy, [])) :=
  ⟨by decide, by decide, by decide,
   C2_amended stPy 0 fsA "/a.py" "python" "x = 1" 1
     (by decide) (by decide) (by decide)⟩

/-- Claim C3, counterexample: starting the python backend whose handshake
request is never answered leaves the start attempt suspended — the outcome is
`blocked`, not a handshake-timeout error, and the effect trace holds only the
spawn and the handshake request, no kill. -/
theorem C3_cex :
    startLSP stEmpty "python" false =
      StartOutcome.blocked ⟨[], [("python", 0)], "", [], 2⟩
        [Effect.spawn "pylsp" [] 0, Effect.request 1 "initialize"] := by
  decide

/-- Claim C3 amended: the wait for the handshake reply is unbounded — when
the backend never replies, `startLSP` suspends forever with only the spawn
and the handshake request in its trace and the spawned process is not killed,
and no start attempt ever produces a handshake-timeout error. -/
theorem C3_amended (st : ManagerState) (lang : String) (config : LSPServerConfig)
    (hcfg : LSP_CONFIGS.lookup lang = some config) :
    startLSP st lang false =
      StartOutcome.blocked
        { st with processes := mapSet st.processes lang st.nextHandle,
                  nextHandle := st.nextHandle + 2 }
        [Effect.spawn config.command config.args st.nextHandle,
         Effect.request (st.nextHandle + 1) "initialize"] ∧
    (∀ q : Nat,
      Effect.kill q ∉
        [Effect.spawn config.command config.args st.nextHandle,
         Effect.request (st.nextHandle + 1) "initialize"]) ∧
    (∀ r : Bool, (startLSP st lang r).errorKind ≠ some LspError.handshakeTimeout) := by
  refine ⟨by simp [startLSP, hcfg], by simp, ?_⟩
  intro r
  cases r <;> simp [startLSP, hcfg, StartOutcome.errorKind]

/-- Claim C3, witness for the amended theorem at concrete inputs. -/
theorem C3_amended_w :
    LSP_CONFIGS.lookup "go" = some ⟨"gopls", [], [".go"]⟩ ∧
    (startLSP stPy "go" false =
      StartOutcome.blocked ⟨[("python", 1)], [("python", 0), ("go", 2)], "/w",
          [("/a.py", "x = 1")], 4⟩
        [Effect.spawn "gopls" [] 2, Effect.request 3 "initialize"] ∧
     (∀ q : Nat,
       Effect.kill q ∉ [Effect.spawn "gopls" [] 2, Effect.request 3 "initialize"]) ∧
     (∀ r : Bool, (startLSP stPy "go" r).errorKind ≠ some LspError.handshakeTimeout)) :=
  ⟨by decide, C3_amended stPy "go" ⟨"gopls", [], [".go"]⟩ (by decide)⟩

/-- Claim C4, counterexample: a state with python (connection 1, process 0)
and go (connection 3, process 2) sessions, where the python backend never
acknowledges shutdown while the go backend would.  The shutdown call suspends
after sending only the shutdown request to python: the go session is never
shut down, neither process is killed, and the maps are not cleared — one
unresponsive backend does block shutdown of the others. -/
theorem C4_cex :
    shutdown ⟨[("python", 1), ("go", 3)], [("python", 0), ("go", 2)], "/w", [], 4⟩
        (fun c => c == 3) =
      StartOutcome.blocked
        ⟨[("python", 1), ("go", 3)], [("python", 0), ("go", 2)], "/w", [], 4⟩
        [Effect.request 1 "shutdown"] := by
  decide

/-- Claim C4 amended: shutdown iterates over the sessions sequentially,
awaiting each acknowledgment with no bound; when the first session does not
acknowledge, shutdown suspends with only that shutdown request sent, so no
exit notification is sent, no process — of that language or any later one —
is killed, and the session maps are never cleared. -/
theorem C4_amended (st : ManagerState) (lang : String) (conn : Nat)
    (rest : List (String × Nat)) (acks : Nat → Bool)
    (hserv : st.servers = (lang, conn) :: rest)
    (hack : acks conn = false) :
    shutdown st acks = StartOutcome.blocked st [Effect.request conn "shutdown"] := by
  simp [shutdown, hserv, shutdownLoop, hack]

/-- Claim C4, witness for the amended theorem at concrete inputs. -/
theorem C4_amended_w :
    (⟨[("python", 1), ("go", 3)], [("python", 0), ("go", 2)], "/w", [],
        (4 : Nat)⟩ : ManagerState).servers = ("python", 1) :: [("go", 3)] ∧
    (fun c : Nat => c == 3) 1 = false ∧
    shutdown ⟨[("python", 1), ("go", 3)], [("python", 0), ("go", 2)], "/w", [], 4⟩
        (fun c => c == 3) =
      StartOutcome.blocked
        ⟨[("python", 1), ("go", 3)], [("python", 0), ("go", 2)], "/w", [], 4⟩
        [Effect.request 1 "shutdown"] :=
  ⟨by decide, by decide,
   C4_amended ⟨[("python", 1), ("go", 3)], [("python", 0), ("go", 2)], "/w", [], 4⟩
     "python" 1 [("go", 3)] (fun c => c == 3) (by decide) (by decide)⟩

/-- Claim C9: workspace initialization is not guarded against re-invocation.
For a language with a registered session (connection `c`, process `p`),
calling it again with that language spawns a new backend process and
overwrites the stored connection and process handles, while the old process
receives no kill and the old connection no request, the open-document map is
kept as is, and no didOpen notification is re-sent to the replacement
process. -/
theorem C9_reinit_overwrites (st : ManagerState) (rootPath : String)
    (root : List FsEntry) (replies : String → Bool) (lang : String)
    (config : LSPServerConfig) (c p : Nat)
    (hcfg : LSP_CONFIGS.lookup lang = some config)
    (hreply : replies lang = true)
    (hs : st.servers.lookup lang = some c)
    (hp : st.processes.lookup lang = some p)
    (hpf : p < st.nextHandle) (hcf : c < st.nextHandle + 1) :
    initWorkspace st rootPath (some [lang]) root replies =
      StartOutcome.ok
        { servers := mapSet st.servers lang (st.nextHandle + 1),
          processes := mapSet st.processes lang st.nextHandle,
          workspaceRoot := rootPath,
          openDocuments := st.openDocuments,
          nextHandle := st.nextHandle + 2 }
        [Effect.spawn config.command config.args st.nextHandle,
         Effect.request (st.nextHandle + 1) "initialize",
         Effect.notif (st.nextHandle + 1) "initialized"] ∧
    (mapSet st.processes lang st.nextHandle).lookup lang = some st.nextHandle ∧
    st.nextHandle ≠ p ∧
    (mapSet st.servers lang (st.nextHandle + 1)).lookup lang =
      some (st.nextHandle + 1) ∧
    st.nextHandle + 1 ≠ c ∧
    (∀ q : Nat,
      Effect.kill q ∉
        [Effect.spawn config.command config.args st.nextHandle,
         Effect.request (st.nextHandle + 1) "initialize",
         Effect.notif (st.nextHandle + 1) "initialized"]) ∧
    (∀ m : String,
      Effect.request c m ∉
        [Effect.spawn config.command config.args st.nextHandle,
         Effect.request (st.nextHandle + 1) "initialize",
         Effect.notif (st.nextHandle + 1) "initialized"]) ∧
    (∀ (cn : Nat) (uri lid : String) (v : Nat) (t : String),
      Effect.didOpen cn uri lid v t ∉
        [Effect.spawn config.command config.args st.nextHandle,
         Effect.request (st.nextHandle + 1) "initialize",
         Effect.notif (st.nextHandle + 1) "initialized"]) := by
  refine ⟨?_, lookup_mapSet_self _ _ _, by omega, lookup_mapSet_self _ _ _,
    by omega, by simp, ?_, by simp⟩
  · simp [initWorkspace, initLoop, startLSP, hcfg, hreply]
  · intro m
    simp only [List.mem_cons, List.not_mem_nil, or_false]
    rintro (h | h | h) <;> simp_all

/-- Claim C9, witness at concrete inputs: re-invocation for python over the
state that already holds a python session. -/
theorem C9_w :
    LSP_CONFIGS.lookup "python" = some ⟨"pylsp", [], [".py"]⟩ ∧
    stPy.servers.lookup "python" = some 1 ∧
    stPy.processes.lookup "python" = some 0 ∧
    initWorkspace stPy "/w" (some ["python"]) [] (fun _ => true) =
      StartOutcome.ok
        ⟨[("python", 3)], [("python", 2)], "/w", [("/a.py", "x = 1")], 4⟩
        [Effect.spawn "pylsp" [] 2, Effect.request 3 "initialize",
         Effect.notif 3 "initialized"] := by
  refine ⟨by decide, by decide, by decide, ?_⟩
  have h := (C9_reinit_overwrites stPy "/w" [] (fun _ => true) "python"
    ⟨"pylsp", [], [".py"]⟩ 1 0 (by decide) rfl (by decide) (by decide)
    (by decide) (by decide)).1
  simpa [stPy, mapSet] using h

/-- Resolution changes the open-document map only by inserting under the
resolved file path. -/
theorem getConnection_openDocuments (st : ManagerState)
    (fs : String → Option String) (filePath : String) :
    (getConnection st fs filePath).2.1.openDocuments = st.openDocuments ∨
    ∃ content,
      (getConnection st fs filePath).2.1.openDocuments =
        mapSet st.openDocuments filePath content := by
  rw [getConnection_eq_getConnRoute, getConnRoute]
  rcases hr : routeLanguage filePath with _ | lang
  · left; rfl
  · rcases hc : st.servers.lookup lang with _ | conn
    · left; simp [hc]
    · by_cases hopen : (st.openDocuments.lookup filePath).isSome
      · left; simp [hc, ensureDocumentOpen, hopen]
      · rcases hfs : fs filePath with _ | content
        · left; simp [hc, ensureDocumentOpen, hopen, hfs]
        · right; exact ⟨content, by simp [hc, ensureDocumentOpen, hopen, hfs]⟩

/-- Claim C8: routing is deterministic first-match-wins over the descriptor
table in declaration order — resolution coincides with dispatching on the
single language produced by `routeLanguage` — and the open-document map keeps
at most one record per file path: distinctness of its keys is preserved by
every resolution. -/
theorem C8_routing_first_match (st : ManagerState)
    (fs : String → Option String) (filePath : String)
    (hnd : (st.openDocuments.map Prod.fst).Nodup) :
    getConnection st fs filePath = getConnRoute st fs filePath ∧
    ((getConnection st fs filePath).2.1.openDocuments.map Prod.fst).Nodup := by
  refine ⟨getConnection_eq_getConnRoute st fs filePath, ?_⟩
  rcases getConnection_openDocuments st fs filePath with h | ⟨content, h⟩
  · rw [h]; exact hnd
  · rw [h]; exact nodup_keys_mapSet _ _ _ hnd

/-- Claim C8, witness at concrete inputs. -/
theorem C8_w :
    (stPy.openDocuments.map Prod.fst).Nodup ∧
    (getConnection stPy fsA "/a.py" = getConnRoute stPy fsA "/a.py" ∧
     ((getConnection stPy fsA "/a.py").2.1.openDocuments.map Prod.fst).Nodup) :=
  ⟨by decide, C8_routing_first_match stPy fsA "/a.py" (by decide)⟩

theorem mem_addLang (langs : List String) (x l : String) :
    l ∈ addLang langs x ↔ l ∈ langs ∨ l = x := by
  rw [addLang]
  by_cases hx : x ∈ langs
  · have h : langs.contains x = true := by simpa using hx
    rw [if_pos h]
    constructor
    · exact Or.inl
    · rintro (h1 | rfl)
      · exact h1
      · exact hx
  · have h : ¬ langs.contains x = true := by simpa using hx
    rw [if_neg h]
    simp

theorem mem_addFold (cfgs : List (String × LSPServerConfig)) (langs : List String)
    (ext l : String) :
    l ∈ cfgs.foldl
        (fun acc p => if p.2.fileExtensions.contains ext then addLang acc p.1 else acc)
        langs ↔
      l ∈ langs ∨ ∃ p ∈ cfgs, p.1 = l ∧ p.2.fileExtensions.contains ext = true := by
  induction cfgs generalizing langs with
  | nil => simp
  | cons hd tl ih =>
    simp only [List.foldl_cons]
    rw [ih]
    by_cases h : hd.2.fileExtensions.contains ext
    · simp only [if_pos h, mem_addLang, List.mem_cons]
      constructor
      · rintro ((h1 | rfl) | ⟨p, hp, rfl, hc⟩)
        · exact Or.inl h1
        · exact Or.inr ⟨hd, Or.inl rfl, rfl, h⟩
        · exact Or.inr ⟨p, Or.inr hp, rfl, hc⟩
      · rintro (h1 | ⟨p, (rfl | hp), rfl, hc⟩)
        · exact Or.inl (Or.inl h1)
        · exact Or.inl (Or.inr rfl)
        · exact Or.inr ⟨p, hp, rfl, hc⟩
    · simp only [if_neg h, List.mem_cons]
      constructor
      · rintro (h1 | ⟨p, hp, rfl, hc⟩)
        · exact Or.inl h1
        · exact Or.inr ⟨p, Or.inr hp, rfl, hc⟩
      · rintro (h1 | ⟨p, (rfl | hp), rfl, hc⟩)
        · exact Or.inl h1
        · exact absurd hc h
        · exact Or.inr ⟨p, hp, rfl, hc⟩

theorem mem_addMatches (langs : List String) (ext l : String) :
    l ∈ addMatches langs ext ↔ l ∈ langs ∨ matchesOne l ext := by
  rw [addMatches, mem_addFold, matchesOne]

theorem langMatches_cons (l n : String) (ns : List String) :
    langMatches l (n :: ns) ↔ matchesOne l (extname n) ∨ langMatches l ns := by
  simp only [langMatches, List.mem_cons]
  constructor
  · rintro ⟨m, (rfl | hm), h⟩
    · exact Or.inl h
    · exact Or.inr ⟨m, hm, h⟩
  · rintro (h | ⟨m, hm, h⟩)
    · exact ⟨n, Or.inl rfl, h⟩
    · exact ⟨m, Or.inr hm, h⟩

theorem langMatches_append (l : String) (ns ms : List String) :
    langMatches l (ns ++ ms) ↔ langMatches l ns ∨ langMatches l ms := by
  simp only [langMatches, List.mem_append]
  constructor
  · rintro ⟨m, (hm | hm), h⟩
    · exact Or.inl ⟨m, hm, h⟩
    · exact Or.inr ⟨m, hm, h⟩
  · rintro (⟨m, hm, h⟩ | ⟨m, hm, h⟩)
    · exact ⟨m, Or.inl hm, h⟩
    · exact ⟨m, Or.inr hm, h⟩

theorem scanList_file {r : Nat} (hr : ¬ r = 0) (d : Nat) (n : String)
    (rest : List FsEntry) (langs : List String) :
    scanList d r (FsEntry.file n :: rest) langs =
      scanList d (r - 1) rest (addMatches langs (extname n)) := by
  rw [scanList]
  simp [hr]

theorem scanList_dotdir {r : Nat} {n : String} (hr : ¬ r = 0)
    (hdot : strStartsWithDot n = true) (d : Nat) (sub rest : List FsEntry)
    (langs : List String) :
    scanList d r (FsEntry.dir n sub :: rest) langs =
      scanList d (r - 1) rest (addMatches langs (extname n)) := by
  rw [scanList]
  simp [hr, hdot]

theorem scanList_dir {r : Nat} {n : String} (hr : ¬ r = 0)
    (hdot : ¬ strStartsWithDot n = true) (d : Nat) (sub rest : List FsEntry)
    (langs : List String) :
    scanList d r (FsEntry.dir n sub :: rest) langs =
      scanList d (r - 1) rest
        (if d + 1 > 3 then langs else scanList (d + 1) 100 sub langs) := by
  rw [scanList]
  simp [hr, hdot]

theorem scannedNames_file {r : Nat} (hr : ¬ r = 0) (b : Bool) (d : Nat)
    (n : String) (rest : List FsEntry) :
    scannedNames b d r (FsEntry.file n :: rest) =
      n :: scannedNames b d (r - 1) rest := by
  rw [scannedNames]
  simp [hr]

theorem scannedNames_dotdir {r : Nat} {n : String} (hr : ¬ r = 0)
    (hdot : strStartsWithDot n = true) (d : Nat) (sub rest : List FsEntry) :
    scannedNames true d r (FsEntry.dir n sub :: rest) =
      n :: scannedNames true d (r - 1) rest := by
  rw [scannedNames]
  simp [hr, hdot]

theorem scannedNames_dir {r : Nat} {n : String} (hr : ¬ r = 0)
    (hdot : ¬ strStartsWithDot n = true) (b : Bool) (d : Nat)
    (sub rest : List FsEntry) :
    scannedNames b d r (FsEntry.dir n sub :: rest) =
      (if d + 1 > 3 then [] else scannedNames b (d + 1) 100 sub) ++
        scannedNames b d (r - 1) rest := by
  rw [scannedNames]
  simp [hr, hdot]

theorem scannedNames_nil (b : Bool) (d r : Nat) : scannedNames b d r [] = [] := by
  rw [scannedNames]

theorem scannedNames_dotdir_false {r : Nat} {n : String} (hr : ¬ r = 0)
    (hdot : strStartsWithDot n = true) (d : Nat) (sub rest : List FsEntry) :
    scannedNames false d r (FsEntry.dir n sub :: rest) =
      scannedNames false d (r - 1) rest := by
  rw [scannedNames]
  simp [hr, hdot]

/-- The scan accumulator law: a language is collected exactly when it was
already accumulated or some scanned name — dot-directories included — has an
extension its config lists. -/
theorem mem_scanList (l : String) (depth remaining : Nat) (entries : List FsEntry)
    (langs : List String) :
    l ∈ scanList depth remaining entries langs ↔
      l ∈ langs ∨ langMatches l (scannedNames true depth remaining entries) := by
  induction depth, remaining, entries, langs using scanList.induct with
  | case1 d r langs => simp [scanList, scannedNames, langMatches]
  | case2 d langs e rest => cases e <;> simp [scanList, scannedNames, langMatches]
  | case3 d r langs rest hr n ih =>
    rw [scanList_file hr, ih, scannedNames_file hr, mem_addMatches, langMatches_cons]
    tauto
  | case4 d r langs rest hr n sub hdot ih =>
    rw [scanList_dotdir hr hdot, ih, scannedNames_dotdir hr hdot, mem_addMatches,
      langMatches_cons]
    tauto
  | case5 d r langs rest hr n sub hdot ih2 ih1 =>
    simp only [dite_eq_ite] at ih1
    rw [scanList_dir hr hdot, scannedNames_dir hr hdot, ih1, langMatches_append]
    by_cases hd : d + 1 > 3
    · rw [if_pos hd, if_pos hd]
      simp [langMatches]
    · rw [if_neg hd, if_neg hd, ih2]
      tauto

/-- Claim C10, counterexample: a root holding a single directory entry named
`.x.py` — a dot-prefixed directory, hence not a scanned file — makes the code
detect python, while the claimed set of languages matching the extension of
some scanned file is empty. -/
theorem C10_cex :
    "python" ∈ detectLanguages [FsEntry.dir ".x.py" []] ∧
    "python" ∉ detectLanguagesClaim [FsEntry.dir ".x.py" []] := by
  constructor
  · have h1 : detectLanguages [FsEntry.dir ".x.py" []] = ["python"] := by
      rw [detectLanguages, scanDir, if_neg (by norm_num),
        scanList_dotdir (by norm_num) (by decide)]
      rw [scanList]
      decide
    rw [h1]
    simp
  · have h2 : scannedNames false 0 100 [FsEntry.dir ".x.py" []] = [] := by
      rw [scannedNames_dotdir_false (by norm_num) (by decide), scannedNames_nil]
    rw [detectLanguagesClaim, h2]
    simp

/-- Claim C10 amended: auto-detection examines only the first 100 directory
entries of each directory, recurses only into subdirectories whose name does
not start with a dot, stops recursing below depth 3, and returns exactly the
set of languages whose configured file extensions match the extension of some
scanned entry — where a directory entry whose name starts with a dot is not
recursed into but is treated like a scanned file, the extension of its name
also participating in the match. -/
theorem C10_detect_languages (root : List FsEntry) (l : String) :
    l ∈ detectLanguages root ↔ l ∈ detectLanguagesAmended root := by
  rw [detectLanguages, scanDir, if_neg (by norm_num), mem_scanList]
  simp only [List.not_mem_nil, false_or, langMatches, matchesOne]
  rw [detectLanguagesAmended]
  simp only [List.mem_filterMap]
  constructor
  · rintro ⟨n, hn, p, hpC, hpl, hc⟩
    refine ⟨p, hpC, ?_⟩
    have hany : (scannedNames true 0 100 root).any
        (fun m => p.2.fileExtensions.contains (extname m)) = true :=
      List.any_eq_true.mpr ⟨n, hn, hc⟩
    rw [if_pos hany, hpl]
  · rintro ⟨p, hpC, hif⟩
    by_cases hany : (scannedNames true 0 100 root).any
        (fun m => p.2.fileExtensions.contains (extname m)) = true
    · rw [if_pos hany] at hif
      obtain ⟨n, hn, hc⟩ := List.any_eq_true.mp hany
      exact ⟨n, hn, p, hpC, Option.some.inj hif, hc⟩
    · rw [if_neg hany] at hif
      exact absurd hif (by simp)

end LspMcp
